import Mathlib

/-!
Verification of the sentry-video stacking tool (`sentry_stack.py`).

The development shallowly embeds the core of the program:

* `re_vid_match`    — `re_vid.match(name)`: the anchored prefix match of the
  fixed timestamp/view pattern against a file name;
* `event_groups`    — grouping of a directory listing into per-timestamp
  groups (Python `defaultdict(list)` preserving insertion order, processing
  names in sorted order; `datetime(...)` range validation included);
* `SentryEvent`     — the event dataclass with `get_view`, `event_dir` and
  `output_path`;
* `compose_stack_cmd` — the ffmpeg command composer, with the
  `try/except IndexError` front-substitution fallback;
* `main_loop`       — the per-event loop of `main` (skip-if-output-exists,
  `print(event.front)`, compose, run), with exception propagation modelled
  by `Option`.

Python strings are Lean `String`s; `pathlib` paths are modelled by their
list of parts (parsing drops empty and `"."` components, exactly as
`PurePosixPath` does); machine-level failure (`IndexError`,
`ValueError`, `ZeroDivisionError`) is modelled by `Option`/`none`.
All definitions are executable by the kernel (structural recursion only).
-/

/-! ### Character and string primitives (kernel-computable) -/

/-- `listPrefixOf p l` : `p` is a prefix of `l` (decidable, structural). -/
def listPrefixOf : List Char → List Char → Bool
  | [], _ => true
  | _ :: _, [] => false
  | a :: as, b :: bs => a == b && listPrefixOf as bs

/-- `listInfixOf p l` : `p` occurs as a contiguous infix of `l`. -/
def listInfixOf (p : List Char) : List Char → Bool
  | [] => listPrefixOf p []
  | l@(_ :: t) => listPrefixOf p l || listInfixOf p t

/-- Python `s.find(pat) != -1`: substring containment (an empty pattern is
always found, as in Python). -/
def strContains (s pat : String) : Bool :=
  match pat.data with
  | [] => true
  | _ :: _ => listInfixOf pat.data s.data

/-- Code-point lexicographic order on char lists: Python's `str` comparison
(used by `sorted`). -/
def charListLe : List Char → List Char → Bool
  | [], _ => true
  | _ :: _, [] => false
  | a :: as, b :: bs =>
    if a.toNat < b.toNat then true
    else if b.toNat < a.toNat then false
    else charListLe as bs

/-- Python string `<=` (code-point lexicographic). -/
def strLe (a b : String) : Bool := charListLe a.data b.data

/-- The ordering used to model Python `sorted` on names. -/
def strLeP (a b : String) : Prop := strLe a b = true

instance : DecidableRel strLeP := fun a b => by
  unfold strLeP; infer_instance

/-! ### Decimal rendering of integers (Python `f"{n}"` for a non-negative
int), with a verified round-trip used for injectivity of output names. -/

/-- The ten decimal digit characters. -/
def digitChar : Nat → Char
  | 0 => '0' | 1 => '1' | 2 => '2' | 3 => '3' | 4 => '4'
  | 5 => '5' | 6 => '6' | 7 => '7' | 8 => '8' | _ => '9'

/-- Numeric value of a digit character. -/
def digitVal (c : Char) : Nat := c.toNat - 48

/-- Little-endian digits of `n` (fuel-based so the kernel can evaluate it;
`n` itself is always enough fuel). -/
def natDigitsRevAux : Nat → Nat → List Char
  | 0, _ => []
  | _ + 1, 0 => []
  | fuel + 1, n + 1 => digitChar ((n + 1) % 10) :: natDigitsRevAux fuel ((n + 1) / 10)

/-- Decimal rendering of a natural number, as Python renders an `int`. -/
def natStr (n : Nat) : String :=
  if n = 0 then "0" else ⟨(natDigitsRevAux n n).reverse⟩

/-- Value of a little-endian digit list (left inverse of `natDigitsRevAux`). -/
def valRev : List Char → Nat
  | [] => 0
  | c :: cs => digitVal c + 10 * valRev cs

theorem digitVal_digitChar {d : Nat} (h : d < 10) : digitVal (digitChar d) = d := by
  interval_cases d <;> rfl

theorem valRev_natDigitsRevAux : ∀ fuel n, n ≤ fuel → valRev (natDigitsRevAux fuel n) = n := by
  intro fuel
  induction fuel with
  | zero => intro n h; interval_cases n; rfl
  | succ f ih =>
    intro n h
    match n with
    | 0 => rfl
    | m + 1 =>
      have hdiv : (m + 1) / 10 ≤ f := by
        have h1 : (m + 1) / 10 < m + 1 := Nat.div_lt_self (Nat.succ_pos m) (by omega)
        omega
      simp only [natDigitsRevAux, valRev, ih _ hdiv,
        digitVal_digitChar (Nat.mod_lt _ (by omega))]
      omega

theorem natStr_injective : ∀ {m n : Nat}, natStr m = natStr n → m = n := by
  intro m n h
  have key : ∀ k : Nat, k ≠ 0 → valRev (natDigitsRevAux k k) = k := fun k _ =>
    valRev_natDigitsRevAux k k (Nat.le_refl k)
  by_cases hm : m = 0 <;> by_cases hn : n = 0
  · omega
  · exfalso
    simp only [natStr, hm, if_pos, if_neg hn] at h
    have hdata : ('0' :: [] : List Char) = (natDigitsRevAux n n).reverse :=
      congrArg String.data h
    have : natDigitsRevAux n n = ['0'] := by
      have := congrArg List.reverse hdata
      simpa using this.symm
    have hv := key n hn
    rw [this] at hv
    simp [valRev, digitVal] at hv
    omega
  · exfalso
    simp only [natStr, hn, if_pos, if_neg hm] at h
    have hdata : (natDigitsRevAux m m).reverse = ('0' :: [] : List Char) :=
      congrArg String.data h
    have : natDigitsRevAux m m = ['0'] := by
      have := congrArg List.reverse hdata
      simpa using this
    have hv := key m hm
    rw [this] at hv
    simp [valRev, digitVal] at hv
    omega
  · simp only [natStr, if_neg hm, if_neg hn] at h
    have hdata := congrArg String.data h
    simp only at hdata
    have hrev := congrArg List.reverse hdata
    simp only [List.reverse_reverse] at hrev
    have := congrArg valRev hrev
    rwa [key m hm, key n hn] at this

/-! ### Order properties of the string comparison (needed to show Python's
`sorted` is a function of the set of names only). -/

theorem charListLe_total : ∀ a b, charListLe a b = true ∨ charListLe b a = true := by
  intro a
  induction a with
  | nil => intro b; left; rfl
  | cons x xs ih =>
    intro b
    match b with
    | [] => right; rfl
    | y :: ys =>
      by_cases hxy : x.toNat < y.toNat
      · left; simp [charListLe, hxy]
      · by_cases hyx : y.toNat < x.toNat
        · right; simp [charListLe, hyx]
        · rcases ih ys with h | h
          · left; simp [charListLe, hxy, hyx, h]
          · right; simp [charListLe, hxy, hyx, h]

theorem charListLe_trans : ∀ a b c, charListLe a b = true → charListLe b c = true →
    charListLe a c = true := by
  intro a
  induction a with
  | nil => intro b c _ _; rfl
  | cons x xs ih =>
    intro b c hab hbc
    match b, c with
    | [], _ => simp [charListLe] at hab
    | _ :: _, [] => simp [charListLe] at hbc
    | y :: ys, z :: zs =>
      simp only [charListLe] at hab hbc ⊢
      by_cases hxy : x.toNat < y.toNat <;> by_cases hyz : y.toNat < z.toNat
      · simp [show x.toNat < z.toNat by omega]
      · simp only [if_pos hxy] at hab
        simp only [if_neg hyz] at hbc
        by_cases hzy : z.toNat < y.toNat
        · simp [hzy] at hbc
        · have : x.toNat < z.toNat := by omega
          simp [this]
      · simp only [if_neg hxy] at hab
        by_cases hyx : y.toNat < x.toNat
        · simp [hyx] at hab
        · have : x.toNat < z.toNat := by omega
          simp [this]
      · simp only [if_neg hxy] at hab
        simp only [if_neg hyz] at hbc
        by_cases hyx : y.toNat < x.toNat
        · simp [hyx] at hab
        · by_cases hzy : z.toNat < y.toNat
          · simp [hzy] at hbc
          · have hxz : ¬ x.toNat < z.toNat := by omega
            have hzx : ¬ z.toNat < x.toNat := by omega
            simp only [if_neg hyx] at hab
            simp only [if_neg hzy] at hbc
            simp [hxz, hzx, ih ys zs hab hbc]

theorem charListLe_antisymm : ∀ a b, charListLe a b = true → charListLe b a = true →
    a = b := by
  intro a
  induction a with
  | nil =>
    intro b _ hba
    match b with
    | [] => rfl
    | _ :: _ => simp [charListLe] at hba
  | cons x xs ih =>
    intro b hab hba
    match b with
    | [] => simp [charListLe] at hab
    | y :: ys =>
      simp only [charListLe] at hab hba
      by_cases hxy : x.toNat < y.toNat
      · exfalso
        have hyx : ¬ y.toNat < x.toNat := by omega
        simp [hyx, hxy] at hba
      · by_cases hyx : y.toNat < x.toNat
        · simp [hxy, hyx] at hab
        · simp only [if_neg hxy, if_neg hyx] at hab
          simp only [if_neg hyx, if_neg hxy] at hba
          have hc : x = y := Char.eq_of_val_eq (UInt32.ext (by
            simp only [Char.toNat] at hxy hyx
            omega))
          rw [hc, ih ys hab hba]

instance : IsTotal String strLeP := ⟨fun a b => charListLe_total a.data b.data⟩

instance : IsTrans String strLeP :=
  ⟨fun a b c => charListLe_trans a.data b.data c.data⟩

instance : IsAntisymm String strLeP :=
  ⟨fun a b hab hba => String.ext (charListLe_antisymm a.data b.data hab hba)⟩

/-! ### Paths

`pathlib.PurePosixPath` modelled by its tuple of parts: parsing a string
splits on `/` and drops empty and `"."` components (so `Path("./events")`
equals `Path("events")`, as in Python); `/`-joining a relative path
concatenates parts; `str` of a path joins the parts with `/` (a path with
no parts prints as `"."`). -/

/-- Split a character list on `/`. -/
def splitSlash : List Char → List (List Char)
  | [] => [[]]
  | c :: cs =>
    if c = '/' then [] :: splitSlash cs
    else
      match splitSlash cs with
      | [] => [[c]]
      | p :: ps => (c :: p) :: ps

/-- Parts of the `pathlib` path denoted by a string. -/
def pathParse (s : String) : List String :=
  ((splitSlash s.data).map (fun l => String.mk l)).filter
    (fun c => !(c == "" || c == "."))

/-- `str()` of a path given by its parts. -/
def pathStr (p : List String) : String :=
  match p with
  | [] => "."
  | x :: xs => x ++ String.join (xs.map (fun s => "/" ++ s))

/-! ### Timestamps

`datetime.datetime` restricted to what the program uses: the six
year/month/day/hour/minute/second fields, the constructor's range
validation, and `strftime('%Y-%m-%d-%H-%M-%S')` (on Linux `%Y` is the
plain decimal year — unpadded below 1000 — and the other fields are
zero-padded to two digits). -/

structure Datetime where
  year : Nat
  month : Nat
  day : Nat
  hour : Nat
  min : Nat
  sec : Nat
deriving DecidableEq

/-- Gregorian leap year (as `calendar.isleap` / `datetime`). -/
def isLeap (y : Nat) : Bool := y % 4 == 0 && (y % 100 != 0 || y % 400 == 0)

/-- Days in a month, as validated by the `datetime` constructor. -/
def daysInMonth (y m : Nat) : Nat :=
  if m == 2 then (if isLeap y then 29 else 28)
  else if m == 4 || m == 6 || m == 9 || m == 11 then 30
  else 31

/-- The `datetime(...)` constructor's range check; out-of-range fields raise
`ValueError`. -/
def datetimeValid (y mo d h mi s : Nat) : Bool :=
  1 ≤ y && y ≤ 9999 && 1 ≤ mo && mo ≤ 12 && 1 ≤ d && d ≤ daysInMonth y mo &&
    h ≤ 23 && mi ≤ 59 && s ≤ 59

/-- Zero-pad to two digits (`strftime` `%m`, `%d`, `%H`, `%M`, `%S`). -/
def pad2 (n : Nat) : String := if n < 10 then "0" ++ natStr n else natStr n

/-- `t.strftime('%Y-%m-%d-%H-%M-%S')`. -/
def Datetime.strftimeYmdHMS (t : Datetime) : String :=
  natStr t.year ++ "-" ++ pad2 t.month ++ "-" ++ pad2 t.day ++ "-" ++
    pad2 t.hour ++ "-" ++ pad2 t.min ++ "-" ++ pad2 t.sec

/-! ### The file-name pattern `re_vid`

```
(?P<year>\d{4})-(?P<month>\d{2})-(?P<day>\d{2})_
(?P<hour>\d{2})-(?P<min>\d{2})-(?P<sec>\d{2})-(?P<view>.*)\.mp4
```

used as `re_vid.match(name)`: an anchored match of a *prefix* of the name
(`re.match`, not `fullmatch`).  `\d` is modelled as an ASCII decimal digit
and `.` as any character other than a newline, with the greedy `.*`
resolved to the rightmost split, exactly as the backtracking engine does. -/

/-- A successful match of `re_vid`: the six numeric groups and the `view`
group. -/
structure VidMatch where
  year : Nat
  month : Nat
  day : Nat
  hour : Nat
  min : Nat
  sec : Nat
  view : String
deriving DecidableEq

/-- ASCII decimal digit (regex `\d` on these names). -/
def isDigitChar (c : Char) : Bool := 48 ≤ c.toNat && c.toNat ≤ 57

/-- Match exactly two digits, returning their value (`int` of the group). -/
def parse2 : List Char → Option (Nat × List Char)
  | a :: b :: r =>
    if isDigitChar a && isDigitChar b then some (10 * digitVal a + digitVal b, r)
    else none
  | _ => none

/-- Match exactly four digits, returning their value (`int` of the group). -/
def parse4 : List Char → Option (Nat × List Char)
  | a :: b :: c :: d :: r =>
    if isDigitChar a && isDigitChar b && isDigitChar c && isDigitChar d then
      some (1000 * digitVal a + 100 * digitVal b + 10 * digitVal c + digitVal d, r)
    else none
  | _ => none

/-- Match one literal character. -/
def expectChar (c : Char) : List Char → Option (List Char)
  | x :: r => if x = c then some r else none
  | [] => none

/-- Does the remainder start with the literal `.mp4`? -/
def dotMp4 (r : List Char) : Bool := listPrefixOf ['.', 'm', 'p', '4'] r

/-- Can `(?P<view>.*)\.mp4` match at split point `i` of the remainder:
the first `i` characters (the candidate view) contain no newline and are
followed immediately by `.mp4`. -/
def viewOk (r : List Char) (i : Nat) : Bool :=
  (r.take i).all (fun c => c != '\n') && dotMp4 (r.drop i)

/-- Greedy resolution of `(?P<view>.*)\.mp4`: try split points from the
right. -/
def viewTry (r : List Char) : Nat → Option (List Char)
  | 0 => if viewOk r 0 then some (r.take 0) else none
  | i + 1 => if viewOk r (i + 1) then some (r.take (i + 1)) else viewTry r i

/-- The `view` group chosen by the regex engine for the remainder after the
timestamp, if `(?P<view>.*)\.mp4` matches at all. -/
def viewSplit (r : List Char) : Option (List Char) := viewTry r r.length

/-- The fixed-width timestamp part of the pattern
(`\d{4}-\d{2}-\d{2}_\d{2}-\d{2}-\d{2}-`): the six numeric groups and
the remainder of the name after the final `-`. -/
def parseStamp (cs : List Char) :
    Option ((Nat × Nat × Nat × Nat × Nat × Nat) × List Char) :=
  match parse4 cs with
  | none => none
  | some (y, r1) =>
  match expectChar '-' r1 with
  | none => none
  | some r2 =>
  match parse2 r2 with
  | none => none
  | some (mo, r3) =>
  match expectChar '-' r3 with
  | none => none
  | some r4 =>
  match parse2 r4 with
  | none => none
  | some (d, r5) =>
  match expectChar '_' r5 with
  | none => none
  | some r6 =>
  match parse2 r6 with
  | none => none
  | some (h, r7) =>
  match expectChar '-' r7 with
  | none => none
  | some r8 =>
  match parse2 r8 with
  | none => none
  | some (mi, r9) =>
  match expectChar '-' r9 with
  | none => none
  | some r10 =>
  match parse2 r10 with
  | none => none
  | some (se, r11) =>
  match expectChar '-' r11 with
  | none => none
  | some r12 => some ((y, mo, d, h, mi, se), r12)

/-- `re_vid.match(s)`: the timestamp fields and view group, or `None`. -/
def re_vid_match (s : String) : Option VidMatch :=
  match parseStamp s.data with
  | none => none
  | some ((y, mo, d, h, mi, se), r) =>
    match viewSplit r with
    | none => none
    | some v => some ⟨y, mo, d, h, mi, se, ⟨v⟩⟩

/-- Modelled from the spec: a *whole-name* match of the fixed pattern
(`YYYY-MM-DD_HH-MM-SS-<view>.mp4` with nothing after it), the reading of
"matches the fixed pattern … exactly" — i.e. `re.fullmatch` instead of the
`re.match` the code performs.  Used to compare the claimed acceptance
condition with the code's. -/
def exactView (r : List Char) : Option (List Char) :=
  if 4 ≤ r.length && viewOk r (r.length - 4) && r.length - 4 + 4 = r.length then
    some (r.take (r.length - 4))
  else none

/-- Whole-name match of `re_vid` (the claim's "matches the pattern
exactly"). -/
def re_vid_exact (s : String) : Option VidMatch :=
  match parseStamp s.data with
  | none => none
  | some ((y, mo, d, h, mi, se), r) =>
    match exactView r with
    | none => none
    | some v => some ⟨y, mo, d, h, mi, se, ⟨v⟩⟩

/-! ### The event model (`SentryEvent`) -/

/-- `SentryEvent`: collection of up to 4 videos for one time stamp.  The
`video_paths` entries are the bare file names collected by `event_groups`
(in `main` they are the strings `vid_path.parts[-1]`). -/
structure SentryEvent where
  sentry_dir : List String
  date_dir : List String
  sentry_event_id : Datetime
  video_paths : List String

/-- `event_dir` property: `sentry_dir / date_dir`. -/
def SentryEvent.event_dir (e : SentryEvent) : List String :=
  e.sentry_dir ++ e.date_dir

/-- `get_view`: the first stored path whose string contains `view` as a
substring; `none` models the `IndexError` raised by `[...][0]` on an empty
filter result. -/
def SentryEvent.get_view (e : SentryEvent) (view : String) : Option String :=
  (e.video_paths.filter (fun p => strContains p view)).head?

/-- Full path of a resolved view file: `event_dir / p` (the file name is
parsed as a path, as `pathlib`'s `/` does). -/
def SentryEvent.view_path (e : SentryEvent) (p : String) : String :=
  pathStr (e.event_dir ++ pathParse p)

/-- The `front` property: `event_dir / get_view("front")`; `none` is the
`IndexError` when no stored name contains `"front"`. -/
def SentryEvent.front (e : SentryEvent) : Option String :=
  (e.get_view "front").map e.view_path

/-- `output_path(scale, speed, quality)`: a file inside the event's own
directory named from the timestamp and the three parameters.  The f-string
contains no path separator, so the `/`-join appends it as a single part. -/
def SentryEvent.output_path (e : SentryEvent) (scale speed quality : Nat) :
    List String :=
  e.event_dir ++
    [e.sentry_event_id.strftimeYmdHMS ++ "_st" ++ natStr scale ++ "_sp" ++
      natStr speed ++ "_q" ++ natStr quality ++ ".mp4"]

/-! ### The command composer (`compose_stack_cmd`) -/

/-- Zero-pad a rendered number on the left to `len` characters. -/
def padZeros (len : Nat) (s : String) : String :=
  String.mk (List.replicate (len - s.data.length) '0') ++ s

/-- The text Python's f-string produces for `1/speed` in
`f"setpts={1/speed}*PTS"`.  Python performs true (IEEE-754 double) division
and formats the result with `repr` (the shortest round-tripping decimal).
Whenever `1/speed` has a short exact decimal expansion — i.e. `speed` is of
the form `2^a * 5^b`, the only speeds at which any claim below inspects this
text — that exact expansion is the repr (`1 ↦ "1.0"`, `2 ↦ "0.5"`,
`4 ↦ "0.25"`, `5 ↦ "0.2"` …) and is produced here.  For other speeds the
double is inexact and repr prints 16–17 significant digits; here the
expansion is truncated to 17 significant digits, which no claim inspects.
`speed = 0` never reaches this function (`ZeroDivisionError`, see
`compose_stack_cmd`). -/
def setpts_factor (speed : Nat) : String :=
  match (List.range 41).find? (fun t => 10 ^ t % speed == 0) with
  | some 0 => "1.0"
  | some (t + 1) => "0." ++ padZeros (t + 1) (natStr (10 ^ (t + 1) / speed))
  | none =>
    match (List.range 40).find? (fun t => speed ≤ 10 ^ t) with
    | some t0 => "0." ++ padZeros (t0 + 16) (natStr (10 ^ (t0 + 16) / speed))
    | none => "0." ++ padZeros 56 (natStr (10 ^ 56 / speed))

/-- The fixed view order of the composer. -/
def views : List String := ["front", "back", "left", "right"]

/-- The fragments of the `-filter_complex` expression, exactly as the
`filter` list is built in `compose_stack_cmd` before `"".join(filter)`. -/
def filterParts (scale speed : Nat) : List String :=
  (views.enum.flatMap (fun iv =>
    ["[" ++ natStr iv.1 ++ ":v]",
     "scale=iw/" ++ natStr scale ++ ":ih/" ++ natStr scale,
     "[" ++ iv.2 ++ "];"])) ++
  ["[front][back]", "hstack", "[long];"] ++
  ["[right][left]", "hstack", "[lat];"] ++
  ["[long][lat]", "vstack", "[all];"] ++
  ["[all]", "setpts=" ++ setpts_factor speed ++ "*PTS", "[res]"]

/-- `"".join(filter)`. -/
def filterString (scale speed : Nat) : String := String.join (filterParts scale speed)

/-- Resolution of one `-i` input in the composer's loop:

```
try:
    cmd.extend(["-i", str(event.event_dir / event.get_view(v))])
except IndexError:
    # hack for pre 10.0 sw with no back video
    cmd.extend(["-i", str(event.event_dir / event.get_view("front"))])
```

If `get_view v` raises (no stored name contains `v`), the handler resolves
`get_view("front")` instead; if that also raises, the `IndexError`
propagates out of the composer (`none`). -/
def resolveInput (e : SentryEvent) (v : String) : Option String :=
  match e.get_view v with
  | some p => some (e.view_path p)
  | none =>
    match e.get_view "front" with
    | some p => some (e.view_path p)
    | none => none

/-- `compose_stack_cmd(event, scale, speed, quality, global_opts)`: the
ffmpeg argument list, or `none` when the composition raises.  The four
inputs are resolved in the fixed order front, back, left, right (each via
`resolveInput`); a `speed` of `0` raises `ZeroDivisionError` when the
`setpts` fragment is formatted (after the inputs are resolved).  A
`global_opts` of `[]` covers both Python's `None` default and an empty
list (`if global_opts:` rejects both, and extending by an empty list is a
no-op). -/
def compose_stack_cmd (e : SentryEvent) (scale speed quality : Nat)
    (global_opts : List String) : Option (List String) :=
  match resolveInput e "front", resolveInput e "back",
      resolveInput e "left", resolveInput e "right" with
  | some i0, some i1, some i2, some i3 =>
    if speed = 0 then none
    else
      some (["ffmpeg"] ++ global_opts ++
        ["-i", i0, "-i", i1, "-i", i2, "-i", i3] ++
        ["-an", "-filter_complex", filterString scale speed] ++
        ["-c:v", "libx264", "-crf", natStr quality] ++
        ["-map", "[res]", pathStr (e.output_path scale speed quality)])
  | _, _, _, _ => none

/-! ### The grouper (`event_groups`) -/

/-- The `datetime` key built from a match's six numeric groups
(`datetime(*[int(c) for c in m.groups()[:-1]])`), when in range. -/
def VidMatch.key (m : VidMatch) : Datetime :=
  ⟨m.year, m.month, m.day, m.hour, m.min, m.sec⟩

/-- Does the match's timestamp pass the `datetime` constructor's check? -/
def VidMatch.keyOk (m : VidMatch) : Bool :=
  datetimeValid m.year m.month m.day m.hour m.min m.sec

/-- `grps[grp_id].append(vid)` on a `defaultdict(list)`, with the
insertion order of keys preserved (Python dicts). -/
def addVid (grps : List (Datetime × List String)) (k : Datetime) (v : String) :
    List (Datetime × List String) :=
  match grps with
  | [] => [(k, [v])]
  | (k', vs) :: rest =>
    if k' = k then (k', vs ++ [v]) :: rest else (k', vs) :: addVid rest k v

/-- The grouping loop over the (already sorted) names.  A name that does
not match `re_vid` is skipped; a matching name whose fields are rejected by
the `datetime` constructor raises `ValueError` (`none`). -/
def eventGroupsGo : List String → List (Datetime × List String) →
    Option (List (Datetime × List String))
  | [], grps => some grps
  | s :: rest, grps =>
    match re_vid_match s with
    | none => eventGroupsGo rest grps
    | some m =>
      if m.keyOk then eventGroupsGo rest (addVid grps m.key s)
      else none

/-- `event_groups(events_dir)`: iterate over the directory's file names in
sorted order and return them in time-synced groups.  The listing is the
multiset of names `iterdir` yields (in arbitrary order); `sorted(...)`
makes the processing order canonical. -/
def event_groups (listing : List String) : Option (List (Datetime × List String)) :=
  eventGroupsGo (List.insertionSort strLeP listing) []

/-! ### The per-event loop of `main`

```
for event in events:
    if not opt.overwrite:
        op = event.output_path(...)
        if op.exists():
            log.info(...); continue
    print(event)
    print(event.front)
    cmd = compose_stack_cmd(event, ...)
    print(" ".join(cmd))
    if not opt.dry_run:
        sp.run(cmd)
```

There is no exception handling around the loop body, so an `IndexError`
raised while resolving a view (in `event.front` or inside
`compose_stack_cmd`) propagates out of `main` and ends the run: `none`.
The filesystem's set of pre-existing output files is passed in as
`existing`; the returned value is the list of commands the loop hands to
`sp.run` (or prints under `--dry-run`), in order. -/
def main_loop (events : List SentryEvent) (scale speed quality : Nat)
    (overwrite : Bool) (existing : List String) (global_opts : List String) :
    Option (List (List String))
  :=
  match events with
  | [] => some []
  | e :: rest =>
    if !overwrite && existing.contains (pathStr (e.output_path scale speed quality)) then
      main_loop rest scale speed quality overwrite existing global_opts
    else
      match e.front with
      | none => none
      | some _ =>
        match compose_stack_cmd e scale speed quality global_opts with
        | none => none
        | some cmd =>
          (main_loop rest scale speed quality overwrite existing global_opts).map
            (cmd :: ·)

/-! ### Basic facts about view resolution -/

theorem strData_append (a b : String) : (a ++ b).data = a.data ++ b.data := rfl

/-- If no stored name contains `view`, `get_view` raises (`none`). -/
theorem get_view_eq_none (e : SentryEvent) (v : String)
    (h : ∀ f ∈ e.video_paths, strContains f v = false) :
    e.get_view v = none := by
  unfold SentryEvent.get_view
  rw [List.head?_eq_none_iff, List.filter_eq_nil_iff]
  intro a ha
  simp [h a ha]

/-- As long as a front file exists, every input of the composer resolves
(either to the view's own file or to the front fallback). -/
theorem resolveInput_isSome_of_front (e : SentryEvent) (f v : String)
    (hf : e.get_view "front" = some f) :
    ∃ p, resolveInput e v = some p := by
  unfold resolveInput
  cases h : e.get_view v
  · exact ⟨e.view_path f, by simp [hf]⟩
  · exact ⟨_, rfl⟩

/-- C3 (claim): an event none of whose files contains the substring
`"front"` makes `compose_stack_cmd` fail — the front-for-back substitution
never masks a genuinely missing front view: resolving any view (or its
fallback) re-raises the `IndexError`. -/
theorem compose_stack_cmd_fails_without_front (e : SentryEvent)
    (scale speed quality : Nat) (global_opts : List String)
    (h : ∀ f ∈ e.video_paths, strContains f "front" = false) :
    compose_stack_cmd e scale speed quality global_opts = none := by
  have hf : e.get_view "front" = none := get_view_eq_none e "front" h
  simp [compose_stack_cmd, resolveInput, hf]

/-- An event whose only file is the left repeater clip. -/
def evOnlyLeft : SentryEvent :=
  ⟨["events"], ["2024-01-02_03-04-05"], ⟨2024, 1, 2, 3, 4, 5⟩,
   ["2024-01-02_03-04-05-left_repeater.mp4"]⟩

/-- Witness for C3 at a concrete event with no front file. -/
theorem compose_stack_cmd_fails_without_front_witness :
    compose_stack_cmd evOnlyLeft 4 1 23 [] = none :=
  compose_stack_cmd_fails_without_front evOnlyLeft 4 1 23 [] (by decide)

/-- C4 (claim): an event with a front file and no file containing
`"back"` composes successfully, and the second `-i` input is the front
file's full path (the `except IndexError` branch resolves
`get_view("front")`). -/
theorem compose_stack_cmd_back_substitution (e : SentryEvent)
    (scale speed quality : Nat) (global_opts : List String) (f : String)
    (hf : e.get_view "front" = some f)
    (hb : ∀ g ∈ e.video_paths, strContains g "back" = false)
    (hs : speed ≠ 0) :
    ∃ l r tail,
      compose_stack_cmd e scale speed quality global_opts =
        some (["ffmpeg"] ++ global_opts ++
          ["-i", e.view_path f, "-i", e.view_path f, "-i", l, "-i", r] ++ tail) := by
  obtain ⟨l, hl⟩ := resolveInput_isSome_of_front e f "left" hf
  obtain ⟨r, hr⟩ := resolveInput_isSome_of_front e f "right" hf
  have h0 : resolveInput e "front" = some (e.view_path f) := by
    simp [resolveInput, hf]
  have h1 : resolveInput e "back" = some (e.view_path f) := by
    simp [resolveInput, get_view_eq_none e "back" hb, hf]
  refine ⟨l, r,
    ["-an", "-filter_complex", filterString scale speed] ++
      ["-c:v", "libx264", "-crf", natStr quality] ++
      ["-map", "[res]", pathStr (e.output_path scale speed quality)], ?_⟩
  simp [compose_stack_cmd, h0, h1, hl, hr, hs]

/-- An event with front, left and right files but nothing containing
`"back"` (pre-10.0 recorder software). -/
def evNoBack : SentryEvent :=
  ⟨["events"], ["2024-01-02_03-04-05"], ⟨2024, 1, 2, 3, 4, 5⟩,
   ["2024-01-02_03-04-05-front.mp4", "2024-01-02_03-04-05-left_repeater.mp4",
    "2024-01-02_03-04-05-right_repeater.mp4"]⟩

/-- Witness for C4 at a concrete back-less event. -/
theorem compose_stack_cmd_back_substitution_witness :
    ∃ l r tail,
      compose_stack_cmd evNoBack 4 2 23 [] =
        some (["ffmpeg"] ++ [] ++
          ["-i", evNoBack.view_path "2024-01-02_03-04-05-front.mp4",
           "-i", evNoBack.view_path "2024-01-02_03-04-05-front.mp4",
           "-i", l, "-i", r] ++ tail) :=
  compose_stack_cmd_back_substitution evNoBack 4 2 23 []
    "2024-01-02_03-04-05-front.mp4" (by decide) (by decide) (by decide)

/-! ### The filter graph and full command layout -/

/-- The `-filter_complex` argument is exactly the concatenation of the four
scale fragments (in input order front, back, left, right), the two
horizontal stacks, the vertical stack, and the `setpts` rescale: the 2×2
grid with top row front|back and bottom row right|left. -/
theorem filterString_eq (scale speed : Nat) :
    filterString scale speed =
      "[0:v]" ++ ("scale=iw/" ++ natStr scale ++ ":ih/" ++ natStr scale) ++ "[front];" ++
      "[1:v]" ++ ("scale=iw/" ++ natStr scale ++ ":ih/" ++ natStr scale) ++ "[back];" ++
      "[2:v]" ++ ("scale=iw/" ++ natStr scale ++ ":ih/" ++ natStr scale) ++ "[left];" ++
      "[3:v]" ++ ("scale=iw/" ++ natStr scale ++ ":ih/" ++ natStr scale) ++ "[right];" ++
      "[front][back]" ++ "hstack" ++ "[long];" ++
      "[right][left]" ++ "hstack" ++ "[lat];" ++
      "[long][lat]" ++ "vstack" ++ "[all];" ++
      "[all]" ++ ("setpts=" ++ setpts_factor speed ++ "*PTS") ++ "[res]" := rfl

/-- C5 (claim): for an event with all four views, the inputs are declared in
the fixed order front, back, left, right, and the `-filter_complex`
argument is the concatenation of the per-input scale fragments
`[i:v]scale=iw/s:ih/s[view];`, then `[front][back]hstack[long];`,
`[right][left]hstack[lat];`, `[long][lat]vstack[all];`, and the PTS rescale
`[all]setpts=(1/speed)*PTS[res]` (where `(1/speed)` is rendered by
`setpts_factor`, the text Python produces for the float `1/speed`). -/
theorem compose_stack_cmd_layout_full (e : SentryEvent)
    (scale speed quality : Nat) (global_opts : List String) (f b l r : String)
    (hf : e.get_view "front" = some f) (hb : e.get_view "back" = some b)
    (hl : e.get_view "left" = some l) (hr : e.get_view "right" = some r)
    (hs : speed ≠ 0) :
    compose_stack_cmd e scale speed quality global_opts =
      some (["ffmpeg"] ++ global_opts ++
        ["-i", e.view_path f, "-i", e.view_path b,
         "-i", e.view_path l, "-i", e.view_path r] ++
        ["-an", "-filter_complex",
         "[0:v]" ++ ("scale=iw/" ++ natStr scale ++ ":ih/" ++ natStr scale) ++ "[front];" ++
         "[1:v]" ++ ("scale=iw/" ++ natStr scale ++ ":ih/" ++ natStr scale) ++ "[back];" ++
         "[2:v]" ++ ("scale=iw/" ++ natStr scale ++ ":ih/" ++ natStr scale) ++ "[left];" ++
         "[3:v]" ++ ("scale=iw/" ++ natStr scale ++ ":ih/" ++ natStr scale) ++ "[right];" ++
         "[front][back]" ++ "hstack" ++ "[long];" ++
         "[right][left]" ++ "hstack" ++ "[lat];" ++
         "[long][lat]" ++ "vstack" ++ "[all];" ++
         "[all]" ++ ("setpts=" ++ setpts_factor speed ++ "*PTS") ++ "[res]"] ++
        ["-c:v", "libx264", "-crf", natStr quality] ++
        ["-map", "[res]", pathStr (e.output_path scale speed quality)]) := by
  have h0 : resolveInput e "front" = some (e.view_path f) := by simp [resolveInput, hf]
  have h1 : resolveInput e "back" = some (e.view_path b) := by simp [resolveInput, hb]
  have h2 : resolveInput e "left" = some (e.view_path l) := by simp [resolveInput, hl]
  have h3 : resolveInput e "right" = some (e.view_path r) := by simp [resolveInput, hr]
  simp [compose_stack_cmd, h0, h1, h2, h3, hs, ← filterString_eq]

/-- The four files of the end-to-end scenario, grouped in sorted order into
an event of sub-directory `2024-01-02_03-04-05` under root `./events`
(`Path("./events")` has the single part `events`). -/
def ev6 : SentryEvent :=
  ⟨["events"], ["2024-01-02_03-04-05"], ⟨2024, 1, 2, 3, 4, 5⟩,
   ["2024-01-02_03-04-05-back.mp4", "2024-01-02_03-04-05-front.mp4",
    "2024-01-02_03-04-05-left_repeater.mp4", "2024-01-02_03-04-05-right_repeater.mp4"]⟩

/-- Witness for C5 at the complete four-view event. -/
theorem compose_stack_cmd_layout_full_witness :
    compose_stack_cmd ev6 4 2 20 [] =
      some (["ffmpeg"] ++ [] ++
        ["-i", ev6.view_path "2024-01-02_03-04-05-front.mp4",
         "-i", ev6.view_path "2024-01-02_03-04-05-back.mp4",
         "-i", ev6.view_path "2024-01-02_03-04-05-left_repeater.mp4",
         "-i", ev6.view_path "2024-01-02_03-04-05-right_repeater.mp4"] ++
        ["-an", "-filter_complex",
         "[0:v]" ++ ("scale=iw/" ++ natStr 4 ++ ":ih/" ++ natStr 4) ++ "[front];" ++
         "[1:v]" ++ ("scale=iw/" ++ natStr 4 ++ ":ih/" ++ natStr 4) ++ "[back];" ++
         "[2:v]" ++ ("scale=iw/" ++ natStr 4 ++ ":ih/" ++ natStr 4) ++ "[left];" ++
         "[3:v]" ++ ("scale=iw/" ++ natStr 4 ++ ":ih/" ++ natStr 4) ++ "[right];" ++
         "[front][back]" ++ "hstack" ++ "[long];" ++
         "[right][left]" ++ "hstack" ++ "[lat];" ++
         "[long][lat]" ++ "vstack" ++ "[all];" ++
         "[all]" ++ ("setpts=" ++ setpts_factor 2 ++ "*PTS") ++ "[res]"] ++
        ["-c:v", "libx264", "-crf", natStr 20] ++
        ["-map", "[res]", pathStr (ev6.output_path 4 2 20)]) :=
  compose_stack_cmd_layout_full ev6 4 2 20 []
    "2024-01-02_03-04-05-front.mp4" "2024-01-02_03-04-05-back.mp4"
    "2024-01-02_03-04-05-left_repeater.mp4" "2024-01-02_03-04-05-right_repeater.mp4"
    (by decide) (by decide) (by decide) (by decide) (by decide)

/-- C10 (claim): every command the composer returns has the fixed token
layout — `ffmpeg` first, the pass-through options verbatim after it and
before any `-i`, exactly four `-i <path>` pairs, `-an`, the
`-filter_complex` expression, `-c:v libx264`, `-crf <quality>`,
`-map [res]`, and the string of `output_path(scale, speed, quality)` as
the final token. -/
theorem compose_stack_cmd_token_layout (e : SentryEvent)
    (scale speed quality : Nat) (global_opts : List String) (cmd : List String)
    (h : compose_stack_cmd e scale speed quality global_opts = some cmd) :
    ∃ i0 i1 i2 i3 fstr,
      cmd = ["ffmpeg"] ++ global_opts ++
        ["-i", i0, "-i", i1, "-i", i2, "-i", i3] ++
        ["-an", "-filter_complex", fstr] ++
        ["-c:v", "libx264", "-crf", natStr quality] ++
        ["-map", "[res]", pathStr (e.output_path scale speed quality)] := by
  rcases h0 : resolveInput e "front" with _ | i0 <;>
    rcases h1 : resolveInput e "back" with _ | i1 <;>
      rcases h2 : resolveInput e "left" with _ | i2 <;>
        rcases h3 : resolveInput e "right" with _ | i3 <;>
          simp [compose_stack_cmd, h0, h1, h2, h3] at h
  obtain ⟨hs, hcmd⟩ := h
  exact ⟨i0, i1, i2, i3, filterString scale speed, by rw [← hcmd]; simp⟩

set_option maxRecDepth 10000 in
/-- Witness for C10 at the concrete composed command of the four-view
event. -/
theorem compose_stack_cmd_token_layout_witness :
    ∃ i0 i1 i2 i3 fstr,
      ["ffmpeg",
       "-i", "events/2024-01-02_03-04-05/2024-01-02_03-04-05-front.mp4",
       "-i", "events/2024-01-02_03-04-05/2024-01-02_03-04-05-back.mp4",
       "-i", "events/2024-01-02_03-04-05/2024-01-02_03-04-05-left_repeater.mp4",
       "-i", "events/2024-01-02_03-04-05/2024-01-02_03-04-05-right_repeater.mp4",
       "-an", "-filter_complex",
       "[0:v]scale=iw/4:ih/4[front];[1:v]scale=iw/4:ih/4[back];[2:v]scale=iw/4:ih/4[left];[3:v]scale=iw/4:ih/4[right];[front][back]hstack[long];[right][left]hstack[lat];[long][lat]vstack[all];[all]setpts=0.5*PTS[res]",
       "-c:v", "libx264", "-crf", "20", "-map", "[res]",
       "events/2024-01-02_03-04-05/2024-01-02-03-04-05_st4_sp2_q20.mp4"] =
      ["ffmpeg"] ++ [] ++
        ["-i", i0, "-i", i1, "-i", i2, "-i", i3] ++
        ["-an", "-filter_complex", fstr] ++
        ["-c:v", "libx264", "-crf", natStr 20] ++
        ["-map", "[res]", pathStr (ev6.output_path 4 2 20)] :=
  compose_stack_cmd_token_layout ev6 4 2 20 [] _ (by decide)

/-! ### The end-to-end scenario and the missing-view behavior of the
composer and the main loop -/

set_option maxRecDepth 10000 in
/-- C6 (claim): the four-file event under root `./events` with scale 4,
speed 2, quality 20 produces the output path
`./events/2024-01-02_03-04-05/2024-01-02-03-04-05_st4_sp2_q20.mp4`
(`output_path` returns that path: `pathlib` paths compare by their
normalized parts, so `./events/…` and `events/…` are the same path), and
the composed command's filter graph contains the PTS-rescale token
`setpts=0.5*PTS`. -/
theorem end_to_end_scenario :
    ev6.output_path 4 2 20 =
      pathParse "./events/2024-01-02_03-04-05/2024-01-02-03-04-05_st4_sp2_q20.mp4" ∧
    ∃ pre post fstr,
      compose_stack_cmd ev6 4 2 20 [] = some (pre ++ ["-filter_complex", fstr] ++ post) ∧
      strContains fstr "setpts=0.5*PTS" = true := by
  refine ⟨by decide,
    ["ffmpeg",
     "-i", "events/2024-01-02_03-04-05/2024-01-02_03-04-05-front.mp4",
     "-i", "events/2024-01-02_03-04-05/2024-01-02_03-04-05-back.mp4",
     "-i", "events/2024-01-02_03-04-05/2024-01-02_03-04-05-left_repeater.mp4",
     "-i", "events/2024-01-02_03-04-05/2024-01-02_03-04-05-right_repeater.mp4",
     "-an"],
    ["-c:v", "libx264", "-crf", "20", "-map", "[res]",
     "events/2024-01-02_03-04-05/2024-01-02-03-04-05_st4_sp2_q20.mp4"],
    "[0:v]scale=iw/4:ih/4[front];[1:v]scale=iw/4:ih/4[back];[2:v]scale=iw/4:ih/4[left];[3:v]scale=iw/4:ih/4[right];[front][back]hstack[long];[right][left]hstack[lat];[long][lat]vstack[all];[all]setpts=0.5*PTS[res]",
    by decide, by decide⟩

/-- The event of `2024-01-02_03-04-05` whose left repeater clip is missing
(back, front and right repeater present). -/
def evNoLeft : SentryEvent :=
  ⟨["events"], ["2024-01-02_03-04-05"], ⟨2024, 1, 2, 3, 4, 5⟩,
   ["2024-01-02_03-04-05-back.mp4", "2024-01-02_03-04-05-front.mp4",
    "2024-01-02_03-04-05-right_repeater.mp4"]⟩

set_option maxRecDepth 10000 in
/-- C1 (code behavior at the claim's failing input): for an event lacking
the left repeater view, `compose_stack_cmd` does *not* fail — the
`try/except IndexError` wraps every view of the loop, so the handler whose
comment scopes it to "no back video" also fires for the missing left view
and substitutes the front file as the third `-i` input, returning a
complete command. -/
theorem compose_substitutes_front_for_missing_left :
    evNoLeft.get_view "left" = none ∧
    compose_stack_cmd evNoLeft 4 1 23 [] =
      some ["ffmpeg",
        "-i", "events/2024-01-02_03-04-05/2024-01-02_03-04-05-front.mp4",
        "-i", "events/2024-01-02_03-04-05/2024-01-02_03-04-05-back.mp4",
        "-i", "events/2024-01-02_03-04-05/2024-01-02_03-04-05-front.mp4",
        "-i", "events/2024-01-02_03-04-05/2024-01-02_03-04-05-right_repeater.mp4",
        "-an", "-filter_complex",
        "[0:v]scale=iw/4:ih/4[front];[1:v]scale=iw/4:ih/4[back];[2:v]scale=iw/4:ih/4[left];[3:v]scale=iw/4:ih/4[right];[front][back]hstack[long];[right][left]hstack[lat];[long][lat]vstack[all];[all]setpts=1.0*PTS[res]",
        "-c:v", "libx264", "-crf", "23", "-map", "[res]",
        "events/2024-01-02_03-04-05/2024-01-02-03-04-05_st4_sp1_q23.mp4"] := by
  exact ⟨by decide, by decide⟩

set_option maxRecDepth 10000 in
/-- C2 (code behavior at the claim's failing input): `main` has no
exception handling around its per-event loop, so the `IndexError` raised
for the first event (whose front view is missing) propagates and the
second, complete event is never processed — the batch run aborts instead
of continuing.  Alone, the complete event is processed fine. -/
theorem main_loop_aborts_on_first_failure :
    (main_loop [ev6] 4 1 23 false [] []).isSome = true ∧
    main_loop [evOnlyLeft, ev6] 4 1 23 false [] [] = none := by
  exact ⟨by decide, by decide⟩

/-! ### Output naming: purity and parameter-injectivity -/

/-- Cancel an identical prefix and an identical suffix around a string's
character data. -/
theorem strData_mid_inj (a b : List Char) {S T : String}
    (h : a ++ (S.data ++ b) = a ++ (T.data ++ b)) : S = T :=
  String.ext (List.append_cancel_right (List.append_cancel_left h))

/-- The name part of `output_path` determines the rendered parameter
block. -/
theorem output_path_param_block (e : SentryEvent) (s p q s' p' q' : Nat)
    (h : e.output_path s p q = e.output_path s' p' q') :
    (natStr s).data ++ ("_sp".data ++ ((natStr p).data ++ ("_q".data ++
        ((natStr q).data ++ ".mp4".data)))) =
      (natStr s').data ++ ("_sp".data ++ ((natStr p').data ++ ("_q".data ++
        ((natStr q').data ++ ".mp4".data)))) := by
  unfold SentryEvent.output_path at h
  have h1 := List.append_cancel_left h
  have h2 : e.sentry_event_id.strftimeYmdHMS ++ "_st" ++ natStr s ++ "_sp" ++
      natStr p ++ "_q" ++ natStr q ++ ".mp4" =
      e.sentry_event_id.strftimeYmdHMS ++ "_st" ++ natStr s' ++ "_sp" ++
      natStr p' ++ "_q" ++ natStr q' ++ ".mp4" := by
    simpa using h1
  have hd := congrArg String.data h2
  simp only [strData_append, List.append_assoc] at hd
  exact List.append_cancel_left (List.append_cancel_left hd)

/-- C9 (claim): `output_path` is a pure deterministic function of the event
and the three parameters; it returns the file
`<timestamp>_st<scale>_sp<speed>_q<quality>.mp4` inside the event's own
sub-directory; and changing exactly one of scale, speed or quality always
changes the path. -/
theorem output_path_pure_and_injective (e : SentryEvent) (s s' p p' q q' : Nat) :
    e.output_path s p q = e.output_path s p q ∧
    e.output_path s p q = e.sentry_dir ++ e.date_dir ++
      [e.sentry_event_id.strftimeYmdHMS ++ "_st" ++ natStr s ++ "_sp" ++
        natStr p ++ "_q" ++ natStr q ++ ".mp4"] ∧
    (s ≠ s' → e.output_path s p q ≠ e.output_path s' p q) ∧
    (p ≠ p' → e.output_path s p q ≠ e.output_path s p' q) ∧
    (q ≠ q' → e.output_path s p q ≠ e.output_path s p q') := by
  refine ⟨rfl, rfl, ?_, ?_, ?_⟩
  · intro hne heq
    have hb := output_path_param_block e s p q s' p q heq
    exact hne (natStr_injective (strData_mid_inj []
      ("_sp".data ++ ((natStr p).data ++ ("_q".data ++
        ((natStr q).data ++ ".mp4".data)))) hb))
  · intro hne heq
    have hb := output_path_param_block e s p q s p' q heq
    have h1 := List.append_cancel_left (List.append_cancel_left hb)
    exact hne (natStr_injective (strData_mid_inj []
      ("_q".data ++ ((natStr q).data ++ ".mp4".data)) h1))
  · intro hne heq
    have hb := output_path_param_block e s p q s p q' heq
    have h1 := List.append_cancel_left (List.append_cancel_left
      (List.append_cancel_left (List.append_cancel_left hb)))
    exact hne (natStr_injective (strData_mid_inj [] (".mp4".data) h1))

/-- Witness for C9: at the scenario event, changing any single parameter
changes the output path. -/
theorem output_path_pure_and_injective_witness :
    ev6.output_path 4 2 20 ≠ ev6.output_path 5 2 20 ∧
    ev6.output_path 4 2 20 ≠ ev6.output_path 4 3 20 ∧
    ev6.output_path 4 2 20 ≠ ev6.output_path 4 2 21 :=
  ⟨(output_path_pure_and_injective ev6 4 5 2 3 20 21).2.2.1 (by decide),
   (output_path_pure_and_injective ev6 4 5 2 3 20 21).2.2.2.1 (by decide),
   (output_path_pure_and_injective ev6 4 5 2 3 20 21).2.2.2.2 (by decide)⟩

/-! ### Soundness and completeness of the file-name matcher -/

theorem parse2_sound {cs : List Char} {v : Nat} {r : List Char}
    (h : parse2 cs = some (v, r)) :
    ∃ a b, cs = a :: b :: r ∧ (isDigitChar a && isDigitChar b) = true ∧
      v = 10 * digitVal a + digitVal b := by
  match cs with
  | [] => simp [parse2] at h
  | [a] => simp [parse2] at h
  | a :: b :: rest =>
    by_cases hd : (isDigitChar a && isDigitChar b) = true
    · simp [parse2, hd] at h
      exact ⟨a, b, by rw [h.2], hd, h.1.symm⟩
    · simp [parse2, hd] at h

theorem parse4_sound {cs : List Char} {v : Nat} {r : List Char}
    (h : parse4 cs = some (v, r)) :
    ∃ a b c d, cs = a :: b :: c :: d :: r ∧
      (isDigitChar a && isDigitChar b && isDigitChar c && isDigitChar d) = true ∧
      v = 1000 * digitVal a + 100 * digitVal b + 10 * digitVal c + digitVal d := by
  match cs with
  | [] => simp [parse4] at h
  | [a] => simp [parse4] at h
  | [a, b] => simp [parse4] at h
  | [a, b, c] => simp [parse4] at h
  | a :: b :: c :: d :: rest =>
    by_cases hd : (isDigitChar a && isDigitChar b && isDigitChar c && isDigitChar d) = true
    · simp [parse4, hd] at h
      exact ⟨a, b, c, d, by rw [h.2], hd, h.1.symm⟩
    · simp [parse4, hd] at h

theorem expectChar_sound {c : Char} {cs r : List Char}
    (h : expectChar c cs = some r) : cs = c :: r := by
  match cs with
  | [] => simp [expectChar] at h
  | x :: t =>
    by_cases hx : x = c
    · simp [expectChar, hx] at h
      rw [hx, h]
    · simp [expectChar, hx] at h

theorem viewTry_sound {r : List Char} {v : List Char} :
    ∀ {n : Nat}, viewTry r n = some v →
      ∃ i, i ≤ n ∧ viewOk r i = true ∧ v = r.take i := by
  intro n
  induction n with
  | zero =>
    intro h
    by_cases h0 : viewOk r 0 = true
    · simp [viewTry, h0] at h
      exact ⟨0, Nat.le_refl 0, h0, h⟩
    · simp [viewTry, h0] at h
  | succ k ih =>
    intro h
    by_cases hk : viewOk r (k + 1) = true
    · simp [viewTry, hk] at h
      exact ⟨k + 1, Nat.le_refl _, hk, h.symm⟩
    · simp only [viewTry, hk, if_neg, Bool.false_eq_true, if_false] at h
      obtain ⟨i, hi, hok, hv⟩ := ih h
      exact ⟨i, Nat.le_succ_of_le hi, hok, hv⟩

theorem viewTry_complete {r : List Char} {i : Nat} (hok : viewOk r i = true) :
    ∀ {n : Nat}, i ≤ n → (∀ j, i < j → j ≤ n → viewOk r j = false) →
      viewTry r n = some (r.take i) := by
  intro n
  induction n with
  | zero =>
    intro hle _
    interval_cases i
    simp [viewTry, hok]
  | succ k ih =>
    intro hle hnone
    by_cases hik : i = k + 1
    · subst hik
      simp [viewTry, hok]
    · have hlt : i ≤ k := by omega
      have hfalse : viewOk r (k + 1) = false := hnone (k + 1) (by omega) (Nat.le_refl _)
      simp only [viewTry, hfalse, Bool.false_eq_true, if_false]
      exact ih hlt (fun j h1 h2 => hnone j h1 (Nat.le_succ_of_le h2))

theorem dotMp4_length {l : List Char} (h : dotMp4 l = true) : 4 ≤ l.length := by
  match l with
  | [] => simp [dotMp4, listPrefixOf] at h
  | [_] => simp [dotMp4, listPrefixOf] at h
  | [_, _] => simp [dotMp4, listPrefixOf] at h
  | [_, _, _] => simp [dotMp4, listPrefixOf] at h
  | _ :: _ :: _ :: _ :: _ => simp

theorem dotMp4_decomp {l : List Char} (h : dotMp4 l = true) :
    l = '.' :: 'm' :: 'p' :: '4' :: l.drop 4 := by
  match l with
  | [] => simp [dotMp4, listPrefixOf] at h
  | [_] => simp [dotMp4, listPrefixOf] at h
  | [_, _] => simp [dotMp4, listPrefixOf] at h
  | [_, _, _] => simp [dotMp4, listPrefixOf] at h
  | a :: b :: c :: d :: rest =>
    simp [dotMp4, listPrefixOf] at h
    obtain ⟨ha, hb, hc, hd⟩ := h
    simp [ha.symm, hb.symm, hc.symm, hd.symm]

/-- The greedy `.*\.mp4` agrees with the anchored-to-the-end resolution
whenever the latter exists (the split at `length - 4` is the rightmost
candidate). -/
theorem viewSplit_of_exactView {r v : List Char} (h : exactView r = some v) :
    viewSplit r = some v := by
  unfold exactView at h
  by_cases hc : (4 ≤ r.length && viewOk r (r.length - 4) &&
      decide (r.length - 4 + 4 = r.length)) = true
  · simp only [hc, if_pos] at h
    simp only [Bool.and_eq_true, decide_eq_true_eq] at hc
    obtain ⟨⟨hlen, hok⟩, _⟩ := hc
    have hnone : ∀ j, r.length - 4 < j → j ≤ r.length → viewOk r j = false := by
      intro j h1 h2
      by_contra hcon
      have hj : viewOk r j = true := by
        revert hcon; cases viewOk r j <;> simp
      have hd4 : dotMp4 (r.drop j) = true := by
        simp only [viewOk, Bool.and_eq_true] at hj
        exact hj.2
      have := dotMp4_length hd4
      rw [List.length_drop] at this
      omega
    unfold viewSplit
    rw [viewTry_complete hok (by omega) hnone]
    rw [← h]
  · simp [hc] at h

/-! ### Soundness of the timestamp prefix -/

theorem parseStamp_sound {cs : List Char} {y mo d hh mi se : Nat} {r : List Char}
    (hp : parseStamp cs = some ((y, mo, d, hh, mi, se), r)) :
    ∃ c1 c2 c3 c4 c5 c6 c7 c8 c9 c10 c11 c12 c13 c14,
      cs = c1 :: c2 :: c3 :: c4 :: '-' :: c5 :: c6 :: '-' :: c7 :: c8 :: '_' ::
        c9 :: c10 :: '-' :: c11 :: c12 :: '-' :: c13 :: c14 :: '-' :: r ∧
      (isDigitChar c1 && isDigitChar c2 && isDigitChar c3 && isDigitChar c4 &&
       isDigitChar c5 && isDigitChar c6 && isDigitChar c7 && isDigitChar c8 &&
       isDigitChar c9 && isDigitChar c10 && isDigitChar c11 && isDigitChar c12 &&
       isDigitChar c13 && isDigitChar c14) = true ∧
      y = 1000 * digitVal c1 + 100 * digitVal c2 + 10 * digitVal c3 + digitVal c4 ∧
      mo = 10 * digitVal c5 + digitVal c6 ∧
      d = 10 * digitVal c7 + digitVal c8 ∧
      hh = 10 * digitVal c9 + digitVal c10 ∧
      mi = 10 * digitVal c11 + digitVal c12 ∧
      se = 10 * digitVal c13 + digitVal c14 := by
  rcases h1 : parse4 cs with _ | ⟨y0, r1⟩ <;> simp [parseStamp, h1] at hp
  rcases h2 : expectChar '-' r1 with _ | r2 <;> simp [h2] at hp
  rcases h3 : parse2 r2 with _ | ⟨mo0, r3⟩ <;> simp [h3] at hp
  rcases h4 : expectChar '-' r3 with _ | r4 <;> simp [h4] at hp
  rcases h5 : parse2 r4 with _ | ⟨d0, r5⟩ <;> simp [h5] at hp
  rcases h6 : expectChar '_' r5 with _ | r6 <;> simp [h6] at hp
  rcases h7 : parse2 r6 with _ | ⟨hh0, r7⟩ <;> simp [h7] at hp
  rcases h8 : expectChar '-' r7 with _ | r8 <;> simp [h8] at hp
  rcases h9 : parse2 r8 with _ | ⟨mi0, r9⟩ <;> simp [h9] at hp
  rcases h10 : expectChar '-' r9 with _ | r10 <;> simp [h10] at hp
  rcases h11 : parse2 r10 with _ | ⟨se0, r11⟩ <;> simp [h11] at hp
  rcases h12 : expectChar '-' r11 with _ | r12 <;> simp [h12] at hp
  obtain ⟨⟨hy, hmo, hd0, hhh, hmi0, hse⟩, hr⟩ := hp
  subst hy; subst hmo; subst hd0; subst hhh; subst hmi0; subst hse; subst hr
  obtain ⟨a1, a2, a3, a4, hcs, hd1, hv1⟩ := parse4_sound h1
  have e2 := expectChar_sound h2
  obtain ⟨a5, a6, hcs3, hd2, hv2⟩ := parse2_sound h3
  have e4 := expectChar_sound h4
  obtain ⟨a7, a8, hcs5, hd3, hv3⟩ := parse2_sound h5
  have e6 := expectChar_sound h6
  obtain ⟨a9, a10, hcs7, hd4, hv4⟩ := parse2_sound h7
  have e8 := expectChar_sound h8
  obtain ⟨a11, a12, hcs9, hd5, hv5⟩ := parse2_sound h9
  have e10 := expectChar_sound h10
  obtain ⟨a13, a14, hcs11, hd6, hv6⟩ := parse2_sound h11
  have e12 := expectChar_sound h12
  refine ⟨a1, a2, a3, a4, a5, a6, a7, a8, a9, a10, a11, a12, a13, a14,
    ?_, ?_, hv1, hv2, hv3, hv4, hv5, hv6⟩
  · rw [hcs, e2, hcs3, e4, hcs5, e6, hcs7, e8, hcs9, e10, hcs11, e12]
  · simp_all

set_option maxRecDepth 10000 in
/-- C7 (counterexample to exact-pattern acceptance): `re.match` anchors only
the start of the name, so a name carrying extra text after the `.mp4` —
which does not match the fixed pattern exactly — is still accepted, with
the timestamp recovered from its leading digits. -/
theorem re_vid_match_accepts_trailing_text :
    re_vid_match "2024-01-02_03-04-05-front.mp4x" =
      some ⟨2024, 1, 2, 3, 4, 5, "front"⟩ ∧
    re_vid_exact "2024-01-02_03-04-05-front.mp4x" = none := by
  exact ⟨by decide, by decide⟩

/-- C7 (amended): the Filename Parser performs an anchored *prefix* match:
every name matching the fixed pattern exactly is accepted with exactly the
name's digit fields as the timestamp and the name's view text as the view;
and every accepted name — including ones with trailing text after the
`.mp4`, which are accepted rather than rejected — begins with
`YYYY-MM-DD_HH-MM-SS-<view>.mp4` where the recovered
year/month/day/hour/minute/second are exactly the digit fields of the name
(so a wrong timestamp is never produced; malformed digit grouping is still
a no-match). -/
theorem re_vid_match_prefix_amended (s : String) (m : VidMatch) :
    (re_vid_exact s = some m → re_vid_match s = some m) ∧
    (re_vid_match s = some m →
      ∃ c1 c2 c3 c4 c5 c6 c7 c8 c9 c10 c11 c12 c13 c14 t,
        s.data = c1 :: c2 :: c3 :: c4 :: '-' :: c5 :: c6 :: '-' :: c7 :: c8 :: '_' ::
          c9 :: c10 :: '-' :: c11 :: c12 :: '-' :: c13 :: c14 :: '-' ::
          (m.view.data ++ '.' :: 'm' :: 'p' :: '4' :: t) ∧
        (isDigitChar c1 && isDigitChar c2 && isDigitChar c3 && isDigitChar c4 &&
         isDigitChar c5 && isDigitChar c6 && isDigitChar c7 && isDigitChar c8 &&
         isDigitChar c9 && isDigitChar c10 && isDigitChar c11 && isDigitChar c12 &&
         isDigitChar c13 && isDigitChar c14) = true ∧
        m.view.data.all (fun c => c != '\n') = true ∧
        m.year = 1000 * digitVal c1 + 100 * digitVal c2 + 10 * digitVal c3 + digitVal c4 ∧
        m.month = 10 * digitVal c5 + digitVal c6 ∧
        m.day = 10 * digitVal c7 + digitVal c8 ∧
        m.hour = 10 * digitVal c9 + digitVal c10 ∧
        m.min = 10 * digitVal c11 + digitVal c12 ∧
        m.sec = 10 * digitVal c13 + digitVal c14) := by
  constructor
  · intro h
    rcases hps : parseStamp s.data with _ | ⟨⟨y, mo, d, hh, mi, se⟩, r⟩ <;>
      simp [re_vid_exact, hps] at h
    rcases hex : exactView r with _ | v <;> simp [hex] at h
    simp [re_vid_match, hps, viewSplit_of_exactView hex, ← h]
  · intro h
    rcases hps : parseStamp s.data with _ | ⟨⟨y, mo, d, hh, mi, se⟩, r⟩ <;>
      simp [re_vid_match, hps] at h
    rcases hvs : viewSplit r with _ | v <;> simp [hvs] at h
    subst h
    obtain ⟨i, _, hok, hv⟩ := viewTry_sound hvs
    simp only [viewOk, Bool.and_eq_true] at hok
    obtain ⟨hnl, hmp4⟩ := hok
    have h1 : r = v ++ List.drop i r := by
      rw [hv]
      exact (List.take_append_drop i r).symm
    have hr : r = v ++ '.' :: 'm' :: 'p' :: '4' :: (r.drop i).drop 4 :=
      h1.trans (congrArg (fun l => v ++ l) (dotMp4_decomp hmp4))
    obtain ⟨c1, c2, c3, c4, c5, c6, c7, c8, c9, c10, c11, c12, c13, c14,
      hcs, hdig, hy, hmo, hd, hhh, hmi, hse⟩ := parseStamp_sound hps
    refine ⟨c1, c2, c3, c4, c5, c6, c7, c8, c9, c10, c11, c12, c13, c14,
      (r.drop i).drop 4, ?_, hdig, ?_, hy, hmo, hd, hhh, hmi, hse⟩
    · rw [hcs]
      exact congrArg (fun l => c1 :: c2 :: c3 :: c4 :: '-' :: c5 :: c6 :: '-' ::
        c7 :: c8 :: '_' :: c9 :: c10 :: '-' :: c11 :: c12 :: '-' ::
        c13 :: c14 :: '-' :: l) hr
    · rw [← hv] at hnl
      exact hnl

set_option maxRecDepth 10000 in
/-- Witness for C7 (amended) at an exactly-matching name. -/
theorem re_vid_match_prefix_amended_witness :
    re_vid_match "2024-01-02_03-04-05-front.mp4" =
      some ⟨2024, 1, 2, 3, 4, 5, "front"⟩ :=
  (re_vid_match_prefix_amended "2024-01-02_03-04-05-front.mp4"
    ⟨2024, 1, 2, 3, 4, 5, "front"⟩).1 (by decide)

/-! ### Properties of the grouper -/

/-- The timestamp key a file name contributes, when the name matches and
its fields survive the `datetime` constructor. -/
def vidKeyValid (f : String) : Option Datetime :=
  match re_vid_match f with
  | some m => if m.keyOk then some m.key else none
  | none => none

/-- A name on which the grouping loop raises `ValueError`: it matches
`re_vid` but its fields are rejected by `datetime(...)`. -/
def badName (f : String) : Bool :=
  match re_vid_match f with
  | some m => !m.keyOk
  | none => false

theorem addVid_keys (grps : List (Datetime × List String)) (k : Datetime) (v : String) :
    (addVid grps k v).map Prod.fst =
      if k ∈ grps.map Prod.fst then grps.map Prod.fst
      else grps.map Prod.fst ++ [k] := by
  induction grps with
  | nil => simp [addVid]
  | cons hd tl ih =>
    obtain ⟨k', vs⟩ := hd
    by_cases hk : k' = k
    · simp [addVid, hk]
    · have hne : ¬ k = k' := fun h => hk h.symm
      simp [addVid, hk, ih, hne]
      by_cases hmem : k ∈ tl.map Prod.fst <;> simp [hmem, hne]

theorem addVid_keys_nodup {grps : List (Datetime × List String)} {k : Datetime}
    {v : String} (h : (grps.map Prod.fst).Nodup) :
    ((addVid grps k v).map Prod.fst).Nodup := by
  rw [addVid_keys]
  by_cases hmem : k ∈ grps.map Prod.fst
  · simp [hmem, h]
  · simp [hmem, List.nodup_append, h]

theorem addVid_sound {grps : List (Datetime × List String)} {k : Datetime} {v : String}
    (hinv : ∀ k1 fs1, (k1, fs1) ∈ grps → ∀ f ∈ fs1, vidKeyValid f = some k1)
    (hv : vidKeyValid v = some k) :
    ∀ k1 fs1, (k1, fs1) ∈ addVid grps k v → ∀ f ∈ fs1, vidKeyValid f = some k1 := by
  induction grps with
  | nil =>
    intro k1 fs1 hmem f hf
    simp [addVid] at hmem
    obtain ⟨hk1, hfs1⟩ := hmem
    subst hk1
    rw [hfs1] at hf
    simp at hf
    rw [hf]
    exact hv
  | cons hd tl ih =>
    obtain ⟨k', vs⟩ := hd
    intro k1 fs1 hmem f hf
    by_cases hk : k' = k
    · subst hk
      simp [addVid] at hmem
      rcases hmem with ⟨hk1, hfs1⟩ | htl
      · subst hk1
        rw [hfs1] at hf
        rcases List.mem_append.mp hf with hin | hin
        · exact hinv k1 vs (by simp) f hin
        · simp at hin
          rw [hin]
          exact hv
      · exact hinv k1 fs1 (List.mem_cons_of_mem _ htl) f hf
    · simp [addVid, hk] at hmem
      rcases hmem with ⟨hk1, hfs1⟩ | htl
      · exact hinv k1 fs1 (by simp [hk1, hfs1]) f hf
      · exact ih (fun k2 fs2 hm => hinv k2 fs2 (List.mem_cons_of_mem _ hm)) k1 fs1 htl f hf

theorem addVid_mem (grps : List (Datetime × List String)) (k : Datetime) (v f : String) :
    (∃ k1 fs1, (k1, fs1) ∈ addVid grps k v ∧ f ∈ fs1) ↔
      (∃ k1 fs1, (k1, fs1) ∈ grps ∧ f ∈ fs1) ∨ f = v := by
  induction grps with
  | nil =>
    constructor
    · rintro ⟨k1, fs1, hmem, hf⟩
      simp [addVid] at hmem
      obtain ⟨_, hfs1⟩ := hmem
      rw [hfs1] at hf
      simp at hf
      exact Or.inr hf
    · rintro (⟨k1, fs1, hmem, _⟩ | rfl)
      · simp at hmem
      · exact ⟨k, [f], by simp [addVid], by simp⟩
  | cons hd tl ih =>
    obtain ⟨a, b⟩ := hd
    by_cases hk : a = k
    · subst hk
      simp only [addVid, if_pos rfl]
      constructor
      · rintro ⟨k1, fs1, hmem, hf⟩
        rcases List.mem_cons.mp hmem with heq | htl
        · obtain ⟨hk1, hfs1⟩ := Prod.ext_iff.mp heq
          simp only at hk1 hfs1
          rw [hfs1] at hf
          rcases List.mem_append.mp hf with hin | hin
          · exact Or.inl ⟨k1, b, by simp [hk1], hin⟩
          · simp at hin
            exact Or.inr hin
        · exact Or.inl ⟨k1, fs1, List.mem_cons_of_mem _ htl, hf⟩
      · rintro (⟨k1, fs1, hmem, hf⟩ | rfl)
        · rcases List.mem_cons.mp hmem with heq | htl
          · obtain ⟨hk1, hfs1⟩ := Prod.ext_iff.mp heq
            simp only at hk1 hfs1
            refine ⟨a, b ++ [v], by simp, ?_⟩
            rw [← hfs1]
            exact List.mem_append_left _ hf
          · exact ⟨k1, fs1, List.mem_cons_of_mem _ htl, hf⟩
        · exact ⟨a, b ++ [f], by simp, by simp⟩
    · have hk2 : ¬ a = k := hk
      simp only [addVid, if_neg hk2]
      constructor
      · rintro ⟨k1, fs1, hmem, hf⟩
        rcases List.mem_cons.mp hmem with heq | htl
        · obtain ⟨hk1, hfs1⟩ := Prod.ext_iff.mp heq
          simp only at hk1 hfs1
          exact Or.inl ⟨k1, fs1, by simp [hk1, hfs1], hf⟩
        · rcases ih.mp ⟨k1, fs1, htl, hf⟩ with hold | hnew
          · obtain ⟨k2, fs2, hm2, hf2⟩ := hold
            exact Or.inl ⟨k2, fs2, List.mem_cons_of_mem _ hm2, hf2⟩
          · exact Or.inr hnew
      · rintro (⟨k1, fs1, hmem, hf⟩ | rfl)
        · rcases List.mem_cons.mp hmem with heq | htl
          · obtain ⟨hk1, hfs1⟩ := Prod.ext_iff.mp heq
            simp only at hk1 hfs1
            exact ⟨k1, fs1, by simp [hk1, hfs1], hf⟩
          · obtain ⟨k2, fs2, hm2, hf2⟩ := ih.mpr (Or.inl ⟨k1, fs1, htl, hf⟩)
            exact ⟨k2, fs2, List.mem_cons_of_mem _ hm2, hf2⟩
        · obtain ⟨k2, fs2, hm2, hf2⟩ := ih.mpr (Or.inr rfl)
          exact ⟨k2, fs2, List.mem_cons_of_mem _ hm2, hf2⟩

theorem eventGroupsGo_some (names : List String) :
    ∀ grps, (∀ s ∈ names, badName s = false) →
      ∃ out, eventGroupsGo names grps = some out := by
  induction names with
  | nil => intro grps _; exact ⟨grps, rfl⟩
  | cons s rest ih =>
    intro grps hgood
    have hrest : ∀ t ∈ rest, badName t = false :=
      fun t ht => hgood t (List.mem_cons_of_mem _ ht)
    rcases hm : re_vid_match s with _ | m
    · simpa [eventGroupsGo, hm] using ih grps hrest
    · have hok : m.keyOk = true := by
        have hb := hgood s (by simp)
        simp [badName, hm] at hb
        exact hb
      simpa [eventGroupsGo, hm, hok] using ih (addVid grps m.key s) hrest

theorem eventGroupsGo_nodup : ∀ (names : List String) (grps out : List (Datetime × List String)),
    eventGroupsGo names grps = some out → (grps.map Prod.fst).Nodup →
      (out.map Prod.fst).Nodup := by
  intro names
  induction names with
  | nil =>
    intro grps out h hnd
    simp [eventGroupsGo] at h
    rwa [← h]
  | cons s rest ih =>
    intro grps out h hnd
    rcases hm : re_vid_match s with _ | m
    · simp only [eventGroupsGo, hm] at h
      exact ih grps out h hnd
    · rcases hok : m.keyOk with _ | _
      · simp [eventGroupsGo, hm, hok] at h
      · simp only [eventGroupsGo, hm, hok, if_pos] at h
        exact ih _ out h (addVid_keys_nodup hnd)

theorem eventGroupsGo_sound : ∀ (names : List String) (grps out : List (Datetime × List String)),
    eventGroupsGo names grps = some out →
    (∀ k fs, (k, fs) ∈ grps → ∀ f ∈ fs, vidKeyValid f = some k) →
    ∀ k fs, (k, fs) ∈ out → ∀ f ∈ fs, vidKeyValid f = some k := by
  intro names
  induction names with
  | nil =>
    intro grps out h hinv
    simp [eventGroupsGo] at h
    rwa [← h]
  | cons s rest ih =>
    intro grps out h hinv
    rcases hm : re_vid_match s with _ | m
    · simp only [eventGroupsGo, hm] at h
      exact ih grps out h hinv
    · rcases hok : m.keyOk with _ | _
      · simp [eventGroupsGo, hm, hok] at h
      · simp only [eventGroupsGo, hm, hok, if_pos] at h
        have hv : vidKeyValid s = some m.key := by simp [vidKeyValid, hm, hok]
        exact ih _ out h (addVid_sound hinv hv)

theorem eventGroupsGo_mem : ∀ (names : List String) (grps out : List (Datetime × List String)),
    eventGroupsGo names grps = some out →
    ∀ f, (∃ k fs, (k, fs) ∈ out ∧ f ∈ fs) ↔
      ((∃ k fs, (k, fs) ∈ grps ∧ f ∈ fs) ∨ (f ∈ names ∧ (re_vid_match f).isSome)) := by
  intro names
  induction names with
  | nil =>
    intro grps out h f
    simp [eventGroupsGo] at h
    rw [← h]
    simp
  | cons s rest ih =>
    intro grps out h f
    rcases hm : re_vid_match s with _ | m
    · simp only [eventGroupsGo, hm] at h
      rw [ih grps out h f]
      constructor
      · rintro (hg | ⟨hf, hs⟩)
        · exact Or.inl hg
        · exact Or.inr ⟨List.mem_cons_of_mem _ hf, hs⟩
      · rintro (hg | ⟨hf, hs⟩)
        · exact Or.inl hg
        · rcases List.mem_cons.mp hf with rfl | hf2
          · rw [hm] at hs
            simp at hs
          · exact Or.inr ⟨hf2, hs⟩
    · rcases hok : m.keyOk with _ | _
      · simp [eventGroupsGo, hm, hok] at h
      · simp only [eventGroupsGo, hm, hok, if_pos] at h
        rw [ih _ out h f, addVid_mem]
        constructor
        · rintro ((hg | rfl) | ⟨hf, hs⟩)
          · exact Or.inl hg
          · exact Or.inr ⟨by simp, by simp [hm]⟩
          · exact Or.inr ⟨List.mem_cons_of_mem _ hf, hs⟩
        · rintro (hg | ⟨hf, hs⟩)
          · exact Or.inl (Or.inl hg)
          · rcases List.mem_cons.mp hf with rfl | hf2
            · exact Or.inl (Or.inr rfl)
            · exact Or.inr ⟨hf2, hs⟩

/-- C8 (counterexample to the claim as stated): the name
`2024-13-01_00-00-00-front.mp4` is parseable (it matches `re_vid`), but
`event_groups` on a listing holding it returns no groups at all — the
`datetime` constructor raises `ValueError` on month 13, so the name is
neither grouped nor silently dropped. -/
theorem event_groups_raises_on_invalid_date :
    (re_vid_match "2024-13-01_00-00-00-front.mp4").isSome = true ∧
    event_groups ["2024-13-01_00-00-00-front.mp4"] = none := by
  exact ⟨by decide, by decide⟩

/-- C8 (amended): on every listing whose regex-matching names all carry
`datetime`-valid fields, `event_groups` returns groups keyed by the exact
per-second capture timestamp, with pairwise-distinct keys, pairwise
disjoint, whose union is exactly the set of parseable names of the listing
(names failing the regex are silently dropped), and the result — including
the order of files within each group — depends only on the multiset of
names, not on the enumeration order (entries are processed in sorted
order).  A regex-matching name with out-of-range fields instead aborts
grouping with `ValueError`. -/
theorem event_groups_amended (listing : List String)
    (hgood : ∀ s ∈ listing, badName s = false) :
    ∃ g, event_groups listing = some g ∧
      (g.map Prod.fst).Nodup ∧
      (∀ k fs, (k, fs) ∈ g → ∀ f ∈ fs, vidKeyValid f = some k) ∧
      (∀ k1 fs1 k2 fs2, (k1, fs1) ∈ g → (k2, fs2) ∈ g → k1 ≠ k2 →
        ∀ f, f ∈ fs1 → f ∉ fs2) ∧
      (∀ f, (∃ k fs, (k, fs) ∈ g ∧ f ∈ fs) ↔
        (f ∈ listing ∧ (re_vid_match f).isSome)) ∧
      (∀ l2, listing.Perm l2 → event_groups l2 = event_groups listing) := by
  have hperm := List.perm_insertionSort strLeP listing
  have hgood2 : ∀ s ∈ List.insertionSort strLeP listing, badName s = false :=
    fun s hs => hgood s (hperm.mem_iff.mp hs)
  obtain ⟨g, hg⟩ := eventGroupsGo_some (List.insertionSort strLeP listing) [] hgood2
  have hsound := eventGroupsGo_sound _ _ _ hg (by simp)
  refine ⟨g, hg, eventGroupsGo_nodup _ _ _ hg (by simp), hsound, ?_, ?_, ?_⟩
  · intro k1 fs1 k2 fs2 h1 h2 hne f hf1 hf2
    have e1 := hsound k1 fs1 h1 f hf1
    have e2 := hsound k2 fs2 h2 f hf2
    rw [e1] at e2
    exact hne (Option.some.inj e2)
  · intro f
    rw [eventGroupsGo_mem _ _ _ hg f]
    simp [hperm.mem_iff]
  · intro l2 hp2
    have hsorteq : List.insertionSort strLeP l2 = List.insertionSort strLeP listing := by
      refine List.eq_of_perm_of_sorted ?_
        (List.sorted_insertionSort strLeP l2) (List.sorted_insertionSort strLeP listing)
      exact (List.perm_insertionSort strLeP l2).trans (hp2.symm.trans hperm.symm)
    unfold event_groups
    rw [hsorteq]

/-- Witness for C8 (amended) on a listing holding one unparseable name and
two files of one event, given in unsorted order. -/
theorem event_groups_amended_witness :
    ∃ g, event_groups ["notavideo.txt", "2024-01-02_03-04-05-front.mp4",
        "2024-01-02_03-04-05-back.mp4"] = some g ∧
      (g.map Prod.fst).Nodup ∧
      (∀ k fs, (k, fs) ∈ g → ∀ f ∈ fs, vidKeyValid f = some k) ∧
      (∀ k1 fs1 k2 fs2, (k1, fs1) ∈ g → (k2, fs2) ∈ g → k1 ≠ k2 →
        ∀ f, f ∈ fs1 → f ∉ fs2) ∧
      (∀ f, (∃ k fs, (k, fs) ∈ g ∧ f ∈ fs) ↔
        (f ∈ ["notavideo.txt", "2024-01-02_03-04-05-front.mp4",
          "2024-01-02_03-04-05-back.mp4"] ∧ (re_vid_match f).isSome)) ∧
      (∀ l2, List.Perm ["notavideo.txt", "2024-01-02_03-04-05-front.mp4",
          "2024-01-02_03-04-05-back.mp4"] l2 →
        event_groups l2 = event_groups ["notavideo.txt",
          "2024-01-02_03-04-05-front.mp4", "2024-01-02_03-04-05-back.mp4"]) :=
  event_groups_amended _ (by decide)
